import Mathlib

/-!
Verification of the paper-master document ingestion and persistence subsystem.

The model is a shallow embedding of the Rust sources:
  - src/src-tauri/src/db.rs   (path normalizer, storage engine)
  - src/src-tauri/src/main.rs (ingestion pipeline, command surface)

Rust strings are modelled as lists of characters (`Str`).  Fallible external
collaborators (path resolution, directory creation, file copy, the database
driver) are modelled by an environment that fixes each call's outcome, so a
single run of `add_paper` is a pure function of the picker outcome, the
environment, and the current filesystem/database state.
-/

namespace PaperMaster

/-- Rust strings, modelled as lists of characters. -/
abbrev Str := List Char

/-- A Rust `PathBuf`; `text` models `to_str`, `none` when the path is not
representable as UTF-8 text. -/
structure PathBuf where
  text : Option Str
deriving DecidableEq

/-- The Windows verbose-path marker — backslash, backslash, question mark,
backslash — that `clean_windows_path` tests for (db.rs line 52). -/
def verboseMarker : Str := "\\\\?\\".data

/-- Rust `clean_windows_path` (db.rs lines 50-57): read the path's text
(via `to_str`, defaulting to the empty string); if it starts with the
verbose marker, rebuild the path from the text with the first four
characters removed, else return the path unchanged. -/
def clean_windows_path (path : PathBuf) : PathBuf :=
  let path_str := path.text.getD []
  if verboseMarker <+: path_str then
    ⟨some (path_str.drop 4)⟩
  else
    path

/-- The separator conversion applied in `init_db` (db.rs line 28): the
single-character replace that maps every backslash to a forward slash. -/
def replaceBackslashes (s : Str) : Str :=
  s.map fun c => if c = '\\' then '/' else c

/-- The full path normalization `init_db` performs before building the
connection string (db.rs lines 27-28): `clean_windows_path` followed by
backslash-to-forward-slash conversion of its text (`none` models the
`unwrap` panic on unrepresentable text). -/
def normalizePath (path : PathBuf) : Option Str :=
  (clean_windows_path path).text.map replaceBackslashes

/-- One column of the `papers` table schema (db.rs `init_tables`): its name,
whether it is declared a primary key, whether it carries a uniqueness
constraint, and whether it is declared not-null. -/
structure Column where
  name : Str
  primaryKey : Bool
  unique : Bool
  notNull : Bool
deriving DecidableEq

/-- The `papers` table schema created by `init_tables` (db.rs lines 59-81).
Only `id` (integer primary key, autoincrement) carries a uniqueness
constraint; in particular `pdf_path` is merely text with not-null. -/
def papersSchema : List Column :=
  [⟨"id".data, true, true, false⟩,
   ⟨"title".data, false, false, true⟩,
   ⟨"authors".data, false, false, false⟩,
   ⟨"journal".data, false, false, false⟩,
   ⟨"year".data, false, false, false⟩,
   ⟨"pdf_path".data, false, false, true⟩,
   ⟨"tags".data, false, false, false⟩,
   ⟨"notes".data, false, false, false⟩,
   ⟨"created_at".data, false, false, false⟩,
   ⟨"updated_at".data, false, false, false⟩]

/-- A stored row of the `papers` table.  Timestamps are modelled as natural
numbers; `created_at` and `updated_at` are filled by the store's
current-timestamp default. -/
structure Row where
  id : Nat
  title : Str
  authors : Option Str
  journal : Option Str
  year : Option Int
  pdf_path : Str
  tags : Option Str
  notes : Option Str
  created_at : Nat
  updated_at : Nat
deriving DecidableEq

/-- The database state: the rows of `papers` plus the next autoincrement id
to assign. -/
structure DB where
  rows : List Row
  nextId : Nat
deriving DecidableEq

/-- A freshly created database: empty table, ids starting at 1. -/
def DB.empty : DB := ⟨[], 1⟩

/-- Rust `insert_paper` (db.rs lines 83-101): insert one row supplying only
`title` and `pdf_path` — all other columns take their defaults (null for
the optional ones, the current time `now` for the timestamps) — and return
the last inserted row id. -/
def insert_paper (db : DB) (title pdf_path : Str) (now : Nat) : DB × Nat :=
  let row : Row :=
    ⟨db.nextId, title, none, none, none, pdf_path, none, none, now, now⟩
  (⟨db.rows ++ [row], db.nextId + 1⟩, db.nextId)

/-- The `Paper` struct (db.rs lines 9-16): the projection
`id, title, pdf_path, created_at` selected by `get_all_papers`. -/
structure Paper where
  id : Nat
  title : Str
  pdf_path : Str
  created_at : Option Nat
deriving DecidableEq

/-- The projection of a stored row onto the `Paper` struct. -/
def projectPaper (r : Row) : Paper :=
  ⟨r.id, r.title, r.pdf_path, some r.created_at⟩

/-- The sort key of the descending order on `created_at`. -/
def createdKey (p : Paper) : Nat := p.created_at.getD 0

/-- The boolean comparison realising the descending order on `created_at`:
`a` may come before `b` iff the creation time of `b` is at most that of
`a`. -/
def paperLe (a b : Paper) : Bool := decide (createdKey b ≤ createdKey a)

/-- Rust `get_all_papers` (db.rs lines 105-112): select the
`id, title, pdf_path, created_at` projection of every row, ordered by
`created_at` descending, modelled as a merge sort of the projections (ties
broken by the sort's fixed strategy, matching the spec's arbitrarily-but-
consistently). -/
def get_all_papers (db : DB) : List Paper :=
  (db.rows.map projectPaper).mergeSort paperLe

/-- Numeric value of a decimal digit character. -/
def digitVal (c : Char) : Nat := c.toNat - 48

/-- One step of parsing a decimal digit string left to right. -/
def parseStep (a : Nat) (c : Char) : Nat := 10 * a + digitVal c

/-- The filesystem state visible to `add_paper`: the set of file paths that
currently exist, as a finite list. -/
structure FS where
  files : List Str
deriving DecidableEq

/-- Rust path existence check (main.rs line 96, the loop guard on
`final_dest`). -/
def FS.hasFile (fs : FS) (p : Str) : Prop := p ∈ fs.files

instance (fs : FS) (p : Str) : Decidable (fs.hasFile p) := by
  unfold FS.hasFile
  infer_instance

/-- The four-character suffix `.pdf` stripped by the trim in main.rs
line 97. -/
def pdfSuffix : Str := ".pdf".data

/-- Fuel-indexed implementation of the Rust trim-end-matches with the
`.pdf` pattern, which strips the suffix repeatedly; each strip removes four
characters, so fuel equal to the string length always suffices. -/
def trimEndPdfAux : Nat → Str → Str
  | 0, s => s
  | fuel + 1, s =>
    if pdfSuffix <:+ s then trimEndPdfAux fuel (s.take (s.length - 4)) else s

/-- The trim-end-matches applied to `file_name` in main.rs line 97. -/
def trimEndPdf (s : Str) : Str := trimEndPdfAux s.length s

/-- Path join (main.rs lines 92, 98): directory, separator, file name. -/
def joinPath (dir name : Str) : Str := dir ++ "/".data ++ name

/-- The candidate file name tried at iteration `k` of the
collision-avoidance loop (main.rs lines 94-100): iteration 0 tries the
source's file name itself; iteration `k` for positive `k` tries the trimmed
base name, an underscore, the decimal rendering of `k`, and the `.pdf`
suffix. -/
def candName (file_name : Str) : Nat → Str
  | 0 => file_name
  | k + 1 => trimEndPdf file_name ++ "_".data ++ Nat.toDigits 10 (k + 1) ++ pdfSuffix

/-- The while-exists loop of main.rs lines 94-100, with explicit fuel:
starting from candidate index `k`, return the first candidate path that
does not exist. -/
def allocLoop (fs : FS) (dir file_name : Str) : Nat → Nat → Option Str
  | 0, _ => none
  | fuel + 1, k =>
    if fs.hasFile (joinPath dir (candName file_name k)) then
      allocLoop fs dir file_name fuel (k + 1)
    else
      some (joinPath dir (candName file_name k))

/-- Fuel sufficient for the allocation loop: one more than the number of
candidate indices up to the file count plus one, among which a free
candidate always exists. -/
def allocFuel (fs : FS) : Nat := fs.files.length + 2

/-- The `final_dest` computed by main.rs lines 92-100 (the default of the
option is never reached: see `alloc_terminates`). -/
def finalDest (fs : FS) (dir file_name : Str) : Str :=
  (allocLoop fs dir file_name (allocFuel fs) 0).getD (joinPath dir file_name)

/-- The final component of a path: the characters after the last slash. -/
def lastComponent (p : Str) : Str :=
  (p.reverse.takeWhile fun c => c ≠ '/').reverse

/-- Rust file-stem semantics applied to a file name: the portion before the
last dot; the whole name when there is no dot or when the only dot leads. -/
def fileStem (name : Str) : Str :=
  let afterRev := name.reverse.takeWhile fun c => c ≠ '.'
  if afterRev.length = name.length then name
  else
    let before := (name.reverse.drop (afterRev.length + 1)).reverse
    if before = [] then name else before

/-- The title derivation of main.rs lines 106-110: the stem of the
destination's file name, with the fixed `Untitled` fallback when the path
has no file-name component. -/
def titleOf (dest : Str) : Str :=
  let name := lastComponent dest
  if name = [] ∨ name = ".".data ∨ name = "..".data then "Untitled".data
  else fileStem name

/-- The file-name extraction of main.rs lines 86-89: the final path
component as text, ignoring trailing separators; `none` when the path has
no file-name component (or, in Rust, when it is not UTF-8 text). -/
def PathBuf.fileNameStr (p : PathBuf) : Option Str :=
  match p.text with
  | none => none
  | some s =>
    let name := lastComponent ((s.reverse.dropWhile fun c => c = '/').reverse)
    if name = [] ∨ name = ".".data ∨ name = "..".data then none
    else some name

/-- The tauri file selection delivered by the picker: a local path or a
URL. -/
inductive DialogFilePath where
  | path (p : PathBuf)
  | url (u : Str)
deriving DecidableEq

/-- Outcome of awaiting the oneshot picker channel (main.rs lines 55-66):
the receive fails when the sender is dropped without sending
(`channelClosed`); otherwise it delivers `none` (the user cancelled) or a
selected `DialogFilePath`. -/
inductive PickerOutcome where
  | channelClosed
  | received (sel : Option DialogFilePath)
deriving DecidableEq

/-- Fixed outcomes of the fallible external calls one `add_paper` run makes:
the app-local data directory resolution, then the directory creation, the
file copy and the insert (`none` means success, `some e` failure with error
text `e`), and the timestamp the store assigns to the inserted row. -/
structure Env where
  appLocalDataDir : Except Str Str
  createDirErr : Option Str
  copyErr : Option Str
  insertErr : Option Str
  now : Nat

/-- One run of the `add_paper` command (main.rs lines 52-121) as a pure
function of the picker outcome, the environment of external-call outcomes,
and the current filesystem and database states; returns the command result
together with the updated states.  A successful copy adds the destination
path to the filesystem; a successful insert appends the row. -/
def add_paper (env : Env) (picker : PickerOutcome) (fs : FS) (db : DB) :
    Except Str Str × FS × DB :=
  match picker with
  | .channelClosed => (.error ("File dialog cancelled".data), fs, db)
  | .received none => (.ok ("No file selected".data), fs, db)
  | .received (some (.url _)) =>
    (.error ("URL selection not supported".data), fs, db)
  | .received (some (.path selected_path)) =>
    match env.appLocalDataDir with
    | .error e => (.error ("Path resolve error: ".data ++ e), fs, db)
    | .ok app_data_dir =>
      let papers_dir := joinPath app_data_dir ("papers".data)
      match env.createDirErr with
      | some e => (.error e, fs, db)
      | none =>
        match selected_path.fileNameStr with
        | none => (.error ("Invalid file name".data), fs, db)
        | some file_name =>
          let final_dest := finalDest fs papers_dir file_name
          match env.copyErr with
          | some e => (.error ("Copy failed: ".data ++ e), fs, db)
          | none =>
            let fs' : FS := ⟨final_dest :: fs.files⟩
            let title := titleOf final_dest
            match env.insertErr with
            | some e => (.error ("Database insert failed: ".data ++ e), fs', db)
            | none =>
              (.ok ("Paper added successfully: ".data ++ title), fs',
                (insert_paper db title final_dest env.now).1)

/-- The in-scope commands (main.rs invoke handler): `add_paper` (with its
picker outcome and external-call outcomes), `get_papers`, `db_test`, and
`read_pdf_file`. -/
inductive Op where
  | add (env : Env) (picker : PickerOutcome)
  | listPapers
  | health
  | readPdf (p : Str)

/-- One sequential step: `add_paper` may update the filesystem and database;
the other commands are read-only. -/
def step (s : FS × DB) : Op → FS × DB
  | .add env picker => (add_paper env picker s.1 s.2).2
  | .listPapers => s
  | .health => s
  | .readPdf _ => s

/-- A sequential execution of in-scope operations from an initial filesystem
and a freshly initialized (empty) database. -/
def run (fs0 : FS) (ops : List Op) : FS × DB :=
  ops.foldl step (fs0, DB.empty)

/-- The invariant maintained procedurally by the destination-naming
algorithm: every stored row's `pdf_path` exists on the filesystem, and no
two rows share a `pdf_path`. -/
def pathsConsistent (s : FS × DB) : Prop :=
  (∀ r ∈ s.2.rows, s.1.hasFile r.pdf_path) ∧
  s.2.rows.Pairwise fun a b => a.pdf_path ≠ b.pdf_path

/-! ## Path normalizer (claims C4, C5) -/

/-- C4: a path whose text begins with the verbose marker normalizes to
exactly the remainder after the marker (separators converted to forward
slashes); a path whose text lacks the marker normalizes to its own text,
identity up to separator conversion. -/
theorem normalizePath_strips_marker :
    (∀ r : Str, normalizePath ⟨some (verboseMarker ++ r)⟩ = some (replaceBackslashes r)) ∧
    (∀ s : Str, ¬ verboseMarker <+: s → normalizePath ⟨some s⟩ = some (replaceBackslashes s)) := by
  constructor
  · intro r
    have hpre : verboseMarker <+: verboseMarker ++ r := ⟨r, rfl⟩
    have hlen : verboseMarker.length = 4 := rfl
    simp only [normalizePath, clean_windows_path, Option.getD_some, hpre, if_pos,
      List.drop_left' hlen, Option.map_some']
  · intro s hs
    simp only [normalizePath, clean_windows_path, Option.getD_some, hs, if_neg,
      not_false_iff, Option.map_some']

theorem normalizePath_strips_marker_witness :
    normalizePath ⟨some ("C:\\x".data)⟩ = some (replaceBackslashes ("C:\\x".data)) :=
  normalizePath_strips_marker.2 ("C:\\x".data) (by decide)

/-- C5: the path normalizer is total; on a path with absent text or whose
text lacks the verbose marker it is a no-op returning its input unchanged. -/
theorem clean_windows_path_total (p : PathBuf)
    (h : p.text = none ∨ ∃ s, p.text = some s ∧ ¬ verboseMarker <+: s) :
    clean_windows_path p = p := by
  rcases h with h | ⟨s, hs, hpre⟩
  · simp only [clean_windows_path, h, Option.getD_none]
    rw [if_neg]
    intro ⟨t, ht⟩
    exact absurd (List.append_eq_nil.mp ht).1 (by decide)
  · simp only [clean_windows_path, hs, Option.getD_some, hpre, if_neg, not_false_iff]

theorem clean_windows_path_total_witness : clean_windows_path ⟨none⟩ = ⟨none⟩ :=
  clean_windows_path_total ⟨none⟩ (Or.inl rfl)

/-! ## Storage engine (claim C6) -/

theorem rows_foldl_insert_length (l : List (Str × Str × Nat)) :
    ∀ db : DB,
      ((l.foldl (fun d t => (insert_paper d t.1 t.2.1 t.2.2).1) db).rows).length =
        db.rows.length + l.length := by
  induction l with
  | nil => intro db; simp
  | cons hd tl ih =>
    intro db
    rw [List.foldl_cons, ih]
    simp [insert_paper]
    omega

/-- C6: inserting `N` papers into an empty table and listing returns exactly
`N` records, each the `id, title, pdf_path, created_at` projection of a
stored row (a permutation of the table's projections), ordered by
`created_at` descending; listing the empty table returns the empty sequence. -/
theorem get_all_papers_spec :
    (∀ inserts : List (Str × Str × Nat),
      (get_all_papers
          (inserts.foldl (fun d t => (insert_paper d t.1 t.2.1 t.2.2).1) DB.empty)).length =
        inserts.length ∧
      (get_all_papers
          (inserts.foldl (fun d t => (insert_paper d t.1 t.2.1 t.2.2).1) DB.empty)).Pairwise
        (fun a b => createdKey b ≤ createdKey a) ∧
      (get_all_papers
          (inserts.foldl (fun d t => (insert_paper d t.1 t.2.1 t.2.2).1) DB.empty)).Perm
        (((inserts.foldl (fun d t => (insert_paper d t.1 t.2.1 t.2.2).1) DB.empty)).rows.map
          projectPaper)) ∧
    get_all_papers DB.empty = [] := by
  constructor
  · intro inserts
    refine ⟨?_, ?_, ?_⟩
    · rw [get_all_papers, List.length_mergeSort, List.length_map,
        rows_foldl_insert_length]
      simp [DB.empty]
    · have h := @List.sorted_mergeSort Paper paperLe
        (fun a b c hab hbc => by
          simp only [paperLe, decide_eq_true_eq] at *
          omega)
        (fun a b => by
          simp only [paperLe, Bool.or_eq_true, decide_eq_true_eq]
          omega)
        ((((inserts.foldl (fun d t => (insert_paper d t.1 t.2.1 t.2.2).1) DB.empty)).rows.map
          projectPaper))
      exact h.imp fun hab => by
        simpa only [paperLe, decide_eq_true_eq] using hab
    · exact List.mergeSort_perm _ _
  · simp [get_all_papers, DB.empty, List.mergeSort]

/-! ## Injectivity of the decimal counter rendering -/

theorem digitVal_digitChar (m : Nat) (h : m < 10) :
    digitVal (Nat.digitChar m) = m := by
  interval_cases m <;> decide

theorem foldl_parseStep_toDigitsCore :
    ∀ (f n : Nat) (acc : List Char), n < 10 ^ f →
      (Nat.toDigitsCore 10 f n acc).foldl parseStep 0 = acc.foldl parseStep n := by
  intro f
  induction f with
  | zero =>
    intro n acc h
    interval_cases n
    rfl
  | succ f ih =>
    intro n acc h
    rw [Nat.toDigitsCore]
    by_cases h0 : n / 10 = 0
    · rw [if_pos h0, List.foldl_cons]
      have hn : n < 10 := by omega
      have : parseStep 0 (Nat.digitChar (n % 10)) = n := by
        rw [parseStep, digitVal_digitChar (n % 10) (by omega)]
        omega
      rw [this]
    · rw [if_neg h0]
      have hdiv : n / 10 < 10 ^ f := by
        rw [Nat.div_lt_iff_lt_mul (by omega)]
        calc n < 10 ^ (f + 1) := h
        _ = 10 ^ f * 10 := by rw [Nat.pow_succ]
      rw [ih (n / 10) (Nat.digitChar (n % 10) :: acc) hdiv, List.foldl_cons]
      have : parseStep (n / 10) (Nat.digitChar (n % 10)) = n := by
        rw [parseStep, digitVal_digitChar (n % 10) (by omega)]
        omega
      rw [this]

theorem foldl_parseStep_toDigits (k : Nat) :
    (Nat.toDigits 10 k).foldl parseStep 0 = k := by
  have hk : k < 10 ^ (k + 1) :=
    lt_of_lt_of_le (Nat.lt_two_pow k)
      (le_trans (Nat.pow_le_pow_left (by omega) k)
        (Nat.pow_le_pow_right (by omega) (Nat.le_succ k)))
  rw [Nat.toDigits, foldl_parseStep_toDigitsCore (k + 1) k [] hk]
  rfl

theorem toDigits_ten_injective {m n : Nat}
    (h : Nat.toDigits 10 m = Nat.toDigits 10 n) : m = n := by
  have := congrArg (List.foldl parseStep 0) h
  rwa [foldl_parseStep_toDigits, foldl_parseStep_toDigits] at this

/-! ## Destination-name allocation (claim C7) -/

theorem candName_injOn (file_name : Str) {i j : Nat} (hi : 1 ≤ i) (hj : 1 ≤ j)
    (h : candName file_name i = candName file_name j) : i = j := by
  obtain ⟨i, rfl⟩ := Nat.exists_eq_add_of_le hi
  obtain ⟨j, rfl⟩ := Nat.exists_eq_add_of_le hj
  rw [Nat.add_comm 1 i, Nat.add_comm 1 j] at h ⊢
  simp only [candName, List.append_assoc] at h
  have h1 := List.append_cancel_left h
  have h2 := List.append_cancel_left h1
  have h3 := List.append_cancel_right h2
  rw [toDigits_ten_injective h3]

theorem joinPath_inj {dir a b : Str} (h : joinPath dir a = joinPath dir b) :
    a = b := by
  simp only [joinPath, List.append_assoc] at h
  exact List.append_cancel_left (List.append_cancel_left h)

theorem exists_free_cand (fs : FS) (dir file_name : Str) :
    ∃ k, k ≤ fs.files.length + 1 ∧
      ¬ fs.hasFile (joinPath dir (candName file_name k)) := by
  by_contra hall
  push_neg at hall
  have hmaps : ∀ j ∈ Finset.Icc 1 (fs.files.length + 1),
      joinPath dir (candName file_name j) ∈ fs.files.toFinset := by
    intro j hj
    rw [List.mem_toFinset]
    exact hall j (Finset.mem_Icc.mp hj).2
  have hinj : Set.InjOn (fun j => joinPath dir (candName file_name j))
      (Finset.Icc 1 (fs.files.length + 1)) := by
    intro i hi j hj hij
    rw [Finset.coe_Icc] at hi hj
    exact candName_injOn file_name hi.1 hj.1 (joinPath_inj hij)
  have hcard := Finset.card_le_card_of_injOn _ hmaps hinj
  have hle : fs.files.toFinset.card ≤ fs.files.length :=
    List.toFinset_card_le fs.files
  rw [Nat.card_Icc] at hcard
  omega

theorem allocLoop_eq_of_first_free (fs : FS) (dir file_name : Str) (j : Nat)
    (hfree : ¬ fs.hasFile (joinPath dir (candName file_name j))) :
    ∀ fuel k, k ≤ j → j < k + fuel →
      (∀ i, k ≤ i → i < j → fs.hasFile (joinPath dir (candName file_name i))) →
      allocLoop fs dir file_name fuel k =
        some (joinPath dir (candName file_name j)) := by
  intro fuel
  induction fuel with
  | zero => intro k hk hlt _; omega
  | succ fuel ih =>
    intro k hkj hlt hocc
    rw [allocLoop]
    by_cases hk : k = j
    · subst hk
      rw [if_neg hfree]
    · have hkj' : k < j := lt_of_le_of_ne hkj hk
      rw [if_pos (hocc k le_rfl hkj')]
      exact ih (k + 1) hkj' (by omega) fun i hi1 hi2 => hocc i (by omega) hi2

theorem alloc_terminates (fs : FS) (dir file_name : Str) :
    ∃ k, k < allocFuel fs ∧
      allocLoop fs dir file_name (allocFuel fs) 0 =
        some (joinPath dir (candName file_name k)) ∧
      ¬ fs.hasFile (joinPath dir (candName file_name k)) ∧
      (∀ i, i < k → fs.hasFile (joinPath dir (candName file_name i))) := by
  have hex : ∃ k, ¬ fs.hasFile (joinPath dir (candName file_name k)) :=
    (exists_free_cand fs dir file_name).imp fun k h => h.2
  refine ⟨Nat.find hex, ?_, ?_, Nat.find_spec hex, ?_⟩
  · obtain ⟨k, hk, hfree⟩ := exists_free_cand fs dir file_name
    have := Nat.find_min' hex hfree
    rw [allocFuel]
    omega
  · refine allocLoop_eq_of_first_free fs dir file_name (Nat.find hex)
      (Nat.find_spec hex) (allocFuel fs) 0 (Nat.zero_le _) ?_ ?_
    · obtain ⟨k, hk, hfree⟩ := exists_free_cand fs dir file_name
      have := Nat.find_min' hex hfree
      rw [allocFuel]
      omega
    · intro i _ hi
      exact Decidable.of_not_not (Nat.find_min hex hi)
  · intro i hi
    exact Decidable.of_not_not (Nat.find_min hex hi)

theorem finalDest_fresh (fs : FS) (dir file_name : Str) :
    ¬ fs.hasFile (finalDest fs dir file_name) := by
  obtain ⟨k, _, heq, hfree, _⟩ := alloc_terminates fs dir file_name
  rw [finalDest, heq, Option.getD_some]
  exact hfree

/-! ## The `add_paper` command (claims C2, C3, C10, C7, C8) -/

/-- C2: when the picker yields no path (user cancelled), `add_paper`
terminates successfully with the no-file-selected result and leaves the
filesystem and database unchanged. -/
theorem add_paper_cancel (env : Env) (fs : FS) (db : DB) :
    add_paper env (.received none) fs db = (.ok ("No file selected".data), fs, db) :=
  rfl

/-- C3: when the picker yields a non-local (URL) reference, `add_paper`
fails with the unsupported-source error and leaves the filesystem and
database unchanged. -/
theorem add_paper_url (env : Env) (u : Str) (fs : FS) (db : DB) :
    add_paper env (.received (some (.url u))) fs db =
      (.error ("URL selection not supported".data), fs, db) :=
  rfl

/-- C10: when the picker channel is closed without delivering a value,
`add_paper` returns an error outcome (the dialog-cancelled error), leaving
the states unchanged — an outcome distinct from the successful no-op
returned for a genuine user cancellation. -/
theorem add_paper_channel_closed (env : Env) (fs : FS) (db : DB) :
    add_paper env .channelClosed fs db =
      (.error ("File dialog cancelled".data), fs, db) ∧
    (add_paper env .channelClosed fs db).1 ≠
      (add_paper env (.received none) fs db).1 :=
  ⟨rfl, fun h => Except.noConfusion h⟩

/-- C7: on every finite filesystem state the destination-name allocation
loop terminates with some path `p`; `p` is a candidate whose existence check
failed (`p` does not exist), and every earlier candidate was checked and
found to exist. -/
theorem add_paper_alloc_terminates (fs : FS) (dir file_name : Str) :
    ∃ p, allocLoop fs dir file_name (allocFuel fs) 0 = some p ∧
      ¬ fs.hasFile p ∧
      ∃ k, p = joinPath dir (candName file_name k) ∧
        ∀ i, i < k → fs.hasFile (joinPath dir (candName file_name i)) := by
  obtain ⟨k, _, heq, hfree, hbusy⟩ := alloc_terminates fs dir file_name
  exact ⟨_, heq, hfree, k, rfl, hbusy⟩

theorem add_paper_alloc_terminates_witness :
    ∃ p, allocLoop ⟨[]⟩ ("d".data) ("a.pdf".data) (allocFuel ⟨[]⟩) 0 = some p ∧
      ¬ FS.hasFile ⟨[]⟩ p ∧
      ∃ k, p = joinPath ("d".data) (candName ("a.pdf".data) k) ∧
        ∀ i, i < k → FS.hasFile ⟨[]⟩ (joinPath ("d".data) (candName ("a.pdf".data) i)) :=
  add_paper_alloc_terminates ⟨[]⟩ ("d".data) ("a.pdf".data)

/-- C8: when the copy step succeeds but the database insert fails,
`add_paper` fails with the storage-write error, the copied file remains on
disk at the chosen destination path, and the database is unchanged. -/
theorem add_paper_insert_failure (dir emsg : Str) (t : Nat) (p : PathBuf)
    (name : Str) (fs : FS) (db : DB) (hname : p.fileNameStr = some name) :
    add_paper ⟨.ok dir, none, none, some emsg, t⟩
        (.received (some (.path p))) fs db =
      (.error ("Database insert failed: ".data ++ emsg),
       ⟨finalDest fs (joinPath dir ("papers".data)) name :: fs.files⟩, db) ∧
    (add_paper ⟨.ok dir, none, none, some emsg, t⟩
        (.received (some (.path p))) fs db).2.1.hasFile
      (finalDest fs (joinPath dir ("papers".data)) name) := by
  constructor
  · simp [add_paper, hname]
  · simp [add_paper, hname, FS.hasFile]

theorem add_paper_insert_failure_witness :
    add_paper ⟨.ok ("a".data), none, none, some ("io".data), 0⟩
        (.received (some (.path ⟨some ("s/p.pdf".data)⟩))) ⟨[]⟩ DB.empty =
      (.error ("Database insert failed: ".data ++ "io".data),
       ⟨finalDest ⟨[]⟩ (joinPath ("a".data) ("papers".data)) ("p.pdf".data) :: []⟩,
       DB.empty) ∧
    (add_paper ⟨.ok ("a".data), none, none, some ("io".data), 0⟩
        (.received (some (.path ⟨some ("s/p.pdf".data)⟩))) ⟨[]⟩ DB.empty).2.1.hasFile
      (finalDest ⟨[]⟩ (joinPath ("a".data) ("papers".data)) ("p.pdf".data)) :=
  add_paper_insert_failure ("a".data) ("io".data) 0 ⟨some ("s/p.pdf".data)⟩
    ("p.pdf".data) ⟨[]⟩ DB.empty (by decide)

/-! ## Sequential executions (claim C9) -/

theorem add_paper_state_cases (env : Env) (picker : PickerOutcome)
    (fs : FS) (db : DB) :
    (add_paper env picker fs db).2 = (fs, db) ∨
    (∃ dest, ¬ fs.hasFile dest ∧
      (add_paper env picker fs db).2 = (⟨dest :: fs.files⟩, db)) ∨
    (∃ dest title now, ¬ fs.hasFile dest ∧
      (add_paper env picker fs db).2 =
        (⟨dest :: fs.files⟩, (insert_paper db title dest now).1)) := by
  rcases picker with _ | sel
  · exact Or.inl rfl
  rcases sel with _ | fp
  · exact Or.inl rfl
  rcases fp with p | u
  · simp only [add_paper]
    rcases henv : env.appLocalDataDir with e | dir
    · simp [henv]
    · simp only [henv]
      rcases hcd : env.createDirErr with _ | e
      · simp only [hcd]
        rcases hfn : p.fileNameStr with _ | name
        · simp [hfn]
        · simp only [hfn]
          rcases hcp : env.copyErr with _ | e
          · simp only [hcp]
            rcases hins : env.insertErr with _ | e
            · simp only [hins]
              exact Or.inr (Or.inr
                ⟨_, _, _, finalDest_fresh fs _ name, rfl⟩)
            · simp only [hins]
              exact Or.inr (Or.inl ⟨_, finalDest_fresh fs _ name, rfl⟩)
          · simp [hcp]
      · simp [hcd]
  · exact Or.inl rfl

theorem step_preserves (s : FS × DB) (op : Op) (h : pathsConsistent s) :
    pathsConsistent (step s op) := by
  cases op with
  | listPapers => exact h
  | health => exact h
  | readPdf p => exact h
  | add env picker =>
    rcases add_paper_state_cases env picker s.1 s.2 with heq |
      ⟨dest, hfree, heq⟩ | ⟨dest, title, now, hfree, heq⟩
    · show pathsConsistent (add_paper env picker s.1 s.2).2
      rw [heq]
      exact ⟨h.1, h.2⟩
    · show pathsConsistent (add_paper env picker s.1 s.2).2
      rw [heq]
      refine ⟨?_, h.2⟩
      intro r hr
      exact List.mem_cons_of_mem dest (h.1 r hr)
    · show pathsConsistent (add_paper env picker s.1 s.2).2
      rw [heq, insert_paper]
      constructor
      · intro r hr
        rcases List.mem_append.mp hr with hold | hnew
        · exact List.mem_cons_of_mem dest (h.1 r hold)
        · rcases List.mem_singleton.mp hnew with rfl
          exact List.mem_cons_self _ _
      · refine List.pairwise_append.mpr ⟨h.2, List.pairwise_singleton _ _, ?_⟩
        intro a ha b hb
        rcases List.mem_singleton.mp hb with rfl
        intro hcontra
        have hmem := h.1 a ha
        rw [hcontra] at hmem
        exact hfree hmem

theorem foldl_step_consistent (ops : List Op) :
    ∀ s, pathsConsistent s → pathsConsistent (ops.foldl step s) := by
  induction ops with
  | nil => intro s h; exact h
  | cons op ops ih => intro s h; exact ih _ (step_preserves s op h)

/-- C9: in every sequential execution of the in-scope operations no two rows
of the `papers` table share a `pdf_path`; and this is not enforced by the
schema — the `pdf_path` column carries neither a uniqueness constraint nor
a primary key. -/
theorem pdf_path_procedurally_unique (ops : List Op) (fs0 : FS) :
    ((run fs0 ops).2.rows.Pairwise fun a b => a.pdf_path ≠ b.pdf_path) ∧
    (∀ col ∈ papersSchema, col.name = "pdf_path".data →
      col.unique = false ∧ col.primaryKey = false) := by
  constructor
  · exact (foldl_step_consistent ops (fs0, DB.empty)
      ⟨fun r hr => absurd hr (List.not_mem_nil r), List.Pairwise.nil⟩).2
  · decide

theorem pdf_path_procedurally_unique_witness :
    ((run ⟨[]⟩ []).2.rows.Pairwise fun a b => a.pdf_path ≠ b.pdf_path) ∧
    (∀ col ∈ papersSchema, col.name = "pdf_path".data →
      col.unique = false ∧ col.primaryKey = false) :=
  pdf_path_procedurally_unique [] ⟨[]⟩

/-! ## The collision-suffix scenario (claim C1) -/

theorem takeWhile_append_stop {α : Type} (p : α → Bool) (x : α)
    (hx : p x = false) :
    ∀ (A B : List α), (∀ c ∈ A, p c = true) → (A ++ x :: B).takeWhile p = A := by
  intro A
  induction A with
  | nil =>
    intro B _
    simp [List.takeWhile_cons, hx]
  | cons a A ih =>
    intro B hall
    have ha : p a = true := hall a (List.mem_cons_self a A)
    simp only [List.cons_append, List.takeWhile_cons, ha, if_true]
    rw [ih B fun c hc => hall c (List.mem_cons_of_mem a hc)]

theorem lastComponent_joinPath (dir name : Str) (h : '/' ∉ name) :
    lastComponent (joinPath dir name) = name := by
  rw [lastComponent, joinPath, List.reverse_append, List.reverse_append]
  have hrev : ("/".data : Str).reverse = '/' :: [] := rfl
  rw [hrev, List.singleton_append]
  rw [takeWhile_append_stop _ '/' (by decide) name.reverse dir.reverse ?_]
  · exact List.reverse_reverse name
  · intro c hc
    rw [List.mem_reverse] at hc
    exact decide_eq_true fun heq => h (heq ▸ hc)

theorem titleOf_joinPath (dir name : Str) (h : '/' ∉ name)
    (h2 : ¬(name = [] ∨ name = ".".data ∨ name = "..".data)) :
    titleOf (joinPath dir name) = fileStem name := by
  simp only [titleOf]
  rw [lastComponent_joinPath dir name h, if_neg h2]

theorem finalDest_eq_of_first_free (fs : FS) (dir file_name : Str) (j : Nat)
    (hfree : ¬ fs.hasFile (joinPath dir (candName file_name j)))
    (hocc : ∀ i, i < j → fs.hasFile (joinPath dir (candName file_name i))) :
    finalDest fs dir file_name = joinPath dir (candName file_name j) := by
  obtain ⟨k, _, heq, hfreek, hbusyk⟩ := alloc_terminates fs dir file_name
  have hkj : k = j := by
    rcases Nat.lt_trichotomy k j with hlt | heq2 | hgt
    · exact absurd (hocc k hlt) hfreek
    · exact heq2
    · exact absurd (hbusyk j hgt) hfree
  rw [finalDest, heq, Option.getD_some, hkj]

/-- C1: ingesting a source named `paper.pdf` into a destination directory
that already holds `paper.pdf` (and no `paper_1.pdf` or `paper_2.pdf`)
stores the copy as `paper_1.pdf`, leaving the existing `paper.pdf` in
place; a subsequent ingestion of another source named `paper.pdf` stores
its copy as `paper_2.pdf`. -/
theorem add_paper_collision_suffixes (dir : Str) (t1 t2 : Nat)
    (src1 src2 : PathBuf) (fs : FS) (db : DB)
    (h1 : src1.fileNameStr = some ("paper.pdf".data))
    (h2 : src2.fileNameStr = some ("paper.pdf".data))
    (hp0 : fs.hasFile (joinPath (joinPath dir ("papers".data)) ("paper.pdf".data)))
    (hp1 : ¬ fs.hasFile (joinPath (joinPath dir ("papers".data)) ("paper_1.pdf".data)))
    (hp2 : ¬ fs.hasFile (joinPath (joinPath dir ("papers".data)) ("paper_2.pdf".data))) :
    add_paper ⟨.ok dir, none, none, none, t1⟩ (.received (some (.path src1))) fs db =
      (.ok ("Paper added successfully: ".data ++ "paper_1".data),
       ⟨joinPath (joinPath dir ("papers".data)) ("paper_1.pdf".data) :: fs.files⟩,
       (insert_paper db ("paper_1".data)
          (joinPath (joinPath dir ("papers".data)) ("paper_1.pdf".data)) t1).1) ∧
    FS.hasFile
      ⟨joinPath (joinPath dir ("papers".data)) ("paper_1.pdf".data) :: fs.files⟩
      (joinPath (joinPath dir ("papers".data)) ("paper.pdf".data)) ∧
    (add_paper ⟨.ok dir, none, none, none, t2⟩ (.received (some (.path src2)))
        ⟨joinPath (joinPath dir ("papers".data)) ("paper_1.pdf".data) :: fs.files⟩
        (insert_paper db ("paper_1".data)
          (joinPath (joinPath dir ("papers".data)) ("paper_1.pdf".data)) t1).1).2.1.files =
      joinPath (joinPath dir ("papers".data)) ("paper_2.pdf".data) ::
        joinPath (joinPath dir ("papers".data)) ("paper_1.pdf".data) :: fs.files := by
  have hc1 : candName ("paper.pdf".data) 1 = "paper_1.pdf".data := by decide
  have hc2 : candName ("paper.pdf".data) 2 = "paper_2.pdf".data := by decide
  have hfd1 : finalDest fs (joinPath dir ("papers".data)) ("paper.pdf".data) =
      joinPath (joinPath dir ("papers".data)) ("paper_1.pdf".data) := by
    rw [← hc1]
    apply finalDest_eq_of_first_free
    · rw [hc1]
      exact hp1
    · intro i hi
      interval_cases i
      exact hp0
  have htitle :
      titleOf (joinPath (joinPath dir ("papers".data)) ("paper_1.pdf".data)) =
        "paper_1".data := by
    rw [titleOf_joinPath _ _ (by decide) (by decide)]
    decide
  refine ⟨?_, ?_, ?_⟩
  · simp only [add_paper, h1]
    rw [hfd1, htitle]
  · exact List.mem_cons_of_mem _ hp0
  · have hfd2 : finalDest
        ⟨joinPath (joinPath dir ("papers".data)) ("paper_1.pdf".data) :: fs.files⟩
        (joinPath dir ("papers".data)) ("paper.pdf".data) =
        joinPath (joinPath dir ("papers".data)) ("paper_2.pdf".data) := by
      rw [← hc2]
      apply finalDest_eq_of_first_free
      · rw [hc2]
        intro hmem
        rcases List.mem_cons.mp hmem with heq | hmem2
        · exact absurd (joinPath_inj heq) (by decide)
        · exact hp2 hmem2
      · intro i hi
        interval_cases i
        · exact List.mem_cons_of_mem _ hp0
        · rw [hc1]
          exact List.mem_cons_self _ _
    simp only [add_paper, h2]
    rw [hfd2]

theorem add_paper_collision_suffixes_witness :
    add_paper ⟨.ok ("a".data), none, none, none, 0⟩
        (.received (some (.path ⟨some ("s/paper.pdf".data)⟩)))
        ⟨[joinPath (joinPath ("a".data) ("papers".data)) ("paper.pdf".data)]⟩
        DB.empty =
      (.ok ("Paper added successfully: ".data ++ "paper_1".data),
       ⟨joinPath (joinPath ("a".data) ("papers".data)) ("paper_1.pdf".data) ::
         [joinPath (joinPath ("a".data) ("papers".data)) ("paper.pdf".data)]⟩,
       (insert_paper DB.empty ("paper_1".data)
          (joinPath (joinPath ("a".data) ("papers".data)) ("paper_1.pdf".data)) 0).1) :=
  (add_paper_collision_suffixes ("a".data) 0 1 ⟨some ("s/paper.pdf".data)⟩
      ⟨some ("s/paper.pdf".data)⟩
      ⟨[joinPath (joinPath ("a".data) ("papers".data)) ("paper.pdf".data)]⟩
      DB.empty (by decide) (by decide) (by decide) (by decide) (by decide)).1

end PaperMaster
